import Mathlib

/-!
Verification of the ResWave resilient document-optimization pipeline.

Shallow embedding of the backend pipeline components:
* chunker `splitContent` (backend/src/routes/files.ts, utils/content.ts),
* timeout policy `calculateTimeout` (utils/timeouts.ts),
* retry wrappers `withRetry` (two variants) and `OllamaService.retryRequest`,
* circuit breaker `CircuitBreaker` (utils/service-recovery.ts variant),
* bounded scheduler `processChunksWithLimit` / `processWithConcurrencyLimit`,
* content extraction `extractTextContent` (two variants),
* request metrics update in the `/api/optimize` handler,
* the handler's artifact-cleanup control flow.

Strings are modelled as `List Char`; JS numbers as `Nat` or `ℚ` where
fractional constants occur; thrown JS errors as an explicit error type.
-/

/-- Error classes of `ErrorTypes` in utils/errors.ts. -/
inductive ErrType
  | modelNotFound
  | connectionError
  | timeout
  | unknown
  | authError
deriving DecidableEq, Repr

/-- Thrown JS error values as classified by the backend:
`OllamaError` (message, type), `OptimizationError` (message, processingStatus),
or a plain `Error` (message). -/
inductive JsError
  | ollamaErr (message : String) (type : ErrType)
  | optimizationErr (message : String) (processingStatus : String)
  | genericErr (message : String)
deriving DecidableEq, Repr

/-- The message carried by a JS error. -/
def errMessage : JsError → String
  | .ollamaErr m _ => m
  | .optimizationErr m _ => m
  | .genericErr m => m

/-! ## Timeout Policy (utils/timeouts.ts) -/

/-- `calculateTimeout(contentLength, isFirstRequest)` from utils/timeouts.ts
lines 4-12. `OLLAMA.INITIAL_PROMPT_TIMEOUT = 90000`,
`OLLAMA.REQUEST_TIMEOUT = 60000`, `timePerChar = 0.05 = 1/20`, max `120000`. -/
def calculateTimeoutA (contentLength : ℚ) (isFirstRequest : Bool) : ℚ :=
  if isFirstRequest then 90000
  else min (60000 + contentLength * (1 / 20)) 120000

/-- `calculateTimeout(contentSize)` from utils/timeouts.ts lines 206-211
(`TIMEOUTS.BASE_MODEL = 45000`, `TIMEOUTS.CHAR_TIME = 5`,
`TIMEOUTS.MAX_MODEL = 120000`); the inline `calculateTimeout` in
routes/files.ts lines 679-683 is the same function. -/
def calculateTimeoutB (contentSize : Nat) : Nat :=
  min (45000 + contentSize * 5) 120000

/-! ## Retry wrappers -/

/-- The fatality test of `withRetry` in utils/timeouts.ts lines 60-66:
only an `OllamaError` of type `MODEL_NOT_FOUND` is rethrown without retry. -/
def fatalA : JsError → Bool
  | .ollamaErr _ t => t = ErrType.modelNotFound
  | _ => false

/-- Trace of one run of a retry wrapper: final result, the (1-based) number
of attempts actually performed, and the list of delays slept between
attempts, in order. -/
structure RetryTrace (α : Type) where
  result : Except JsError α
  attempts : Nat
  delays : List Nat
deriving Repr

/-- Loop of `withRetry` from utils/timeouts.ts lines 46-85.
`remaining` counts the attempts still allowed including the current one,
so the call at attempt `k` has `remaining = maxAttempts - k + 1`; the
`remaining = 0` outer case is the JS post-loop `throw lastError || new
Error('Retry failed')`, reachable only when `maxAttempts < 1`.
The delay before the next attempt is `delayMs * attempt` (line 77). -/
def goA (op : Nat → Except JsError α) (maxAttempts delayMs : Nat) :
    Nat → Nat → RetryTrace α
  | _, 0 => ⟨.error (.genericErr "Retry failed"), 0, []⟩
  | attempt, remaining + 1 =>
    match op attempt with
    | .ok v => ⟨.ok v, attempt, []⟩
    | .error e =>
      if fatalA e then ⟨.error e, attempt, []⟩
      else if remaining = 0 then
        ⟨.error (.ollamaErr
            ("Failed after " ++ toString maxAttempts ++ " attempts: " ++ errMessage e)
            .connectionError),
          attempt, []⟩
      else
        let r := goA op maxAttempts delayMs (attempt + 1) remaining
        ⟨r.result, r.attempts, delayMs * attempt :: r.delays⟩

/-- `withRetry` from utils/timeouts.ts lines 46-85 (the `OllamaError`-aware
variant with linear delay `delayMs * attempt` and a terminal
`CONNECTION_ERROR` carrying the attempt count). -/
def withRetryA (op : Nat → Except JsError α) (maxAttempts delayMs : Nat) : RetryTrace α :=
  goA op maxAttempts delayMs 1 maxAttempts

/-- Loop of `withRetry` from utils/timeouts.ts lines 179-200 and the local
`withRetry` of routes/files.ts lines 463-484: exponential backoff
`baseDelayMs * 2 ^ (attempt - 1)`, and on exhaustion the bare `lastError`
is rethrown. The `remaining = 0` outer case models the JS post-loop
`throw lastError` with `lastError` still undefined. -/
def goB (op : Nat → Except JsError α) (baseDelayMs : Nat) :
    Nat → Nat → RetryTrace α
  | _, 0 => ⟨.error (.genericErr "undefined"), 0, []⟩
  | attempt, remaining + 1 =>
    match op attempt with
    | .ok v => ⟨.ok v, attempt, []⟩
    | .error e =>
      if remaining = 0 then ⟨.error e, attempt, []⟩
      else
        let r := goB op baseDelayMs (attempt + 1) remaining
        ⟨r.result, r.attempts, baseDelayMs * 2 ^ (attempt - 1) :: r.delays⟩

/-- `withRetry` from utils/timeouts.ts lines 179-200 / routes/files.ts
lines 463-484. -/
def withRetryB (op : Nat → Except JsError α) (maxAttempts baseDelayMs : Nat) : RetryTrace α :=
  goB op baseDelayMs 1 maxAttempts

/-- Loop of `OllamaService.retryRequest` (services/ollama.service.ts lines
59-75): every error class is retried, delay
`min(1000 * 2^(attempt-1) + jitter, 10000)` with random jitter modelled as
an explicit function of the attempt number. -/
def goRR (op : Nat → Except JsError α) (jitter : Nat → ℚ) :
    Nat → Nat → Except JsError α × Nat × List ℚ
  | _, 0 => (.error (.genericErr "undefined"), 0, [])
  | attempt, remaining + 1 =>
    match op attempt with
    | .ok v => (.ok v, attempt, [])
    | .error e =>
      if remaining = 0 then (.error e, attempt, [])
      else
        let r := goRR op jitter (attempt + 1) remaining
        (r.1, r.2.1, min (1000 * 2 ^ (attempt - 1) + jitter attempt) 10000 :: r.2.2)

/-- `OllamaService.retryRequest` (services/ollama.service.ts lines 59-75). -/
def retryRequest (op : Nat → Except JsError α) (jitter : Nat → ℚ) (maxRetries : Nat) :
    Except JsError α × Nat × List ℚ :=
  goRR op jitter 1 maxRetries

/-! ## Circuit Breaker (service-recovery variant, `CircuitBreaker` class) -/

/-- The three breaker states ('open' is modelled as `opened` since `open`
is a Lean keyword). -/
inductive CircuitState
  | closed
  | opened
  | halfOpen
deriving DecidableEq, Repr

/-- `CircuitBreaker` configuration: `failureThreshold`, `successThreshold`,
`timeout` (the cooldown window in ms). -/
structure CBConfig where
  failureThreshold : Nat
  successThreshold : Nat
  timeout : Nat
deriving DecidableEq, Repr

/-- The mutable fields of the `CircuitBreaker` class: cumulative failure
count, success count, state, and the `lastFailure` timestamp. -/
structure CB where
  failures : Nat
  successes : Nat
  state : CircuitState
  lastFailure : Nat
deriving DecidableEq, Repr

/-- Initial breaker: all counters zero, state closed, `lastFailure = 0`. -/
def CB.init : CB := ⟨0, 0, .closed, 0⟩

/-- `handleSuccess`: only acts in half-open; reaching `successThreshold`
calls `reset()` (both counters zeroed, state closed). In the closed state a
success changes nothing: the failure counter is NOT reset. -/
def handleSuccess (cfg : CBConfig) (s : CB) : CB :=
  if s.state = .halfOpen then
    if cfg.successThreshold ≤ s.successes + 1 then
      { s with failures := 0, successes := 0, state := .closed }
    else { s with successes := s.successes + 1 }
  else s

/-- `handleFailure`: increments the cumulative failure counter; at
`failureThreshold` the breaker opens and records the failure time. -/
def handleFailure (cfg : CBConfig) (s : CB) (now : Nat) : CB :=
  if cfg.failureThreshold ≤ s.failures + 1 then
    { s with failures := s.failures + 1, state := .opened, lastFailure := now }
  else { s with failures := s.failures + 1 }

/-- Observable outcome of one `execute` call: rejected without running the
wrapped function (circuit open within cooldown), or executed with the
wrapped call succeeding / failing. -/
inductive CBOutcome
  | rejected
  | succeeded
  | failed
deriving DecidableEq, Repr

/-- `CircuitBreaker.execute`: when open, reject unless
`now - lastFailure > timeout`, in which case move to half-open first; then
run the wrapped function (its outcome is the boolean `callSucceeds`) and
report it to `handleSuccess` / `handleFailure`. -/
def cbExecute (cfg : CBConfig) (s : CB) (now : Nat) (callSucceeds : Bool) :
    CBOutcome × CB :=
  if s.state = .opened then
    if cfg.timeout < now - s.lastFailure then
      let s1 := { s with state := CircuitState.halfOpen }
      if callSucceeds then (.succeeded, handleSuccess cfg s1)
      else (.failed, handleFailure cfg s1 now)
    else (.rejected, s)
  else
    if callSucceeds then (.succeeded, handleSuccess cfg s)
    else (.failed, handleFailure cfg s now)

/-- Run a sequence of calls (each a pair of the current clock and the
wrapped call's outcome) through the breaker. -/
def runCB (cfg : CBConfig) : CB → List (Nat × Bool) → CB
  | s, [] => s
  | s, (now, b) :: rest => runCB cfg (cbExecute cfg s now b).2 rest

/-- Longest run of consecutive failures (entries `false`) in a call-outcome
sequence; this is the count the spec's "consecutive failure counter, reset
by a success" would track the maximum of. -/
def consecAux : List Bool → Nat → Nat → Nat
  | [], cur, best => max cur best
  | b :: rest, cur, best =>
    if b then consecAux rest 0 (max cur best)
    else consecAux rest (cur + 1) (max cur best)

/-- Maximum number of consecutive failures in an outcome sequence. -/
def maxConsecFailures (l : List Bool) : Nat := consecAux l 0 0

/-! ## Request metrics (routes/files.ts lines 428-433 and 609-613) -/

/-- The `metrics` object of routes/files.ts. The average is a JS number,
modelled in exact arithmetic over ℚ. -/
structure ReqMetrics where
  totalRequests : Nat
  successfulRequests : Nat
  failedRequests : Nat
  averageProcessingTime : ℚ
deriving DecidableEq, Repr

/-- The initial `metrics` value (all fields 0). -/
def initialMetrics : ReqMetrics := ⟨0, 0, 0, 0⟩

/-- The success path of the `/api/optimize` handler (routes/files.ts lines
609-613): `successfulRequests++` followed by
`averageProcessingTime = (avg * (n - 1) + processingTime) / n` with
`n` the incremented success count. -/
def recordSuccess (m : ReqMetrics) (processingTime : ℚ) : ReqMetrics :=
  let n := m.successfulRequests + 1
  { m with
      successfulRequests := n,
      averageProcessingTime :=
        (m.averageProcessingTime * ((n : ℚ) - 1) + processingTime) / (n : ℚ) }

/-! ## Chunker (`splitContent` of routes/files.ts lines 747-789 and
utils/content.ts; text modelled as `List Char`) -/

/-- The double line break used both as the paragraph-split pattern and as
the join separator. -/
def sep : List Char := ['\n', '\n']

/-- Scanner for `text.split(/\n\n+/)`: in the skipping state (first
argument `true`) further newlines of the current separator run are
consumed; otherwise characters accumulate into the current paragraph
(held reversed in `cur`) and a pair of newlines closes it. -/
def spAux : Bool → List Char → List Char → List (List Char)
  | _, [], cur => [cur.reverse]
  | true, c :: rest, cur =>
    if c = '\n' then spAux true rest cur
    else spAux false rest (c :: cur)
  | false, c :: rest, cur =>
    if c = '\n' then
      match rest with
      | [] => [(c :: cur).reverse]
      | c2 :: rest2 =>
        if c2 = '\n' then cur.reverse :: spAux true rest2 []
        else spAux false rest2 (c2 :: c :: cur)
    else spAux false rest (c :: cur)

/-- `text.split(/\n\n+/)` of the chunker. -/
def splitParas (text : List Char) : List (List Char) := spAux false text []

/-- Sentence-terminal punctuation class `[.!?]`. -/
def isTerm (c : Char) : Bool := c = '.' || c = '!' || c = '?'

/-- One step of `paragraph.match(/[^.!?]+[.!?]+/g)`: skip characters that
cannot start a match, take a nonempty run of non-terminators followed by a
nonempty run of terminators; stop (discarding any trailing fragment) when
either run is empty. Fuel is the remaining length; each match consumes at
least one character. -/
def sentAux : Nat → List Char → List (List Char)
  | 0, _ => []
  | fuel + 1, s =>
    let s1 := s.dropWhile isTerm
    let body := s1.takeWhile (fun c => !(isTerm c))
    let rest1 := s1.dropWhile (fun c => !(isTerm c))
    let punct := rest1.takeWhile isTerm
    let rest2 := rest1.dropWhile isTerm
    if body = [] ∨ punct = [] then []
    else (body ++ punct) :: sentAux fuel rest2

/-- `paragraph.match(/[^.!?]+[.!?]+/g)`, as the list of matches (empty list
models the `null` result). -/
def sentences (s : List Char) : List (List Char) := sentAux s.length s

/-- Inner loop body of the oversized-paragraph branch: accumulate sentences
into `sentenceChunk` while the concatenation stays within the maximum,
otherwise push the accumulated chunk (if nonempty) and restart from the
current sentence. -/
def sentStep (M : Nat) (acc : List (List Char) × List Char) (s : List Char) :
    List (List Char) × List Char :=
  let chunks := acc.1
  let sChunk := acc.2
  if (sChunk ++ s).length ≤ M then (chunks, sChunk ++ s)
  else ((if sChunk = [] then chunks else chunks ++ [sChunk]), s)

/-- Loop body of `splitContent` over one paragraph. An oversized paragraph
first flushes `currentChunk`, then is split on sentences (falling back to
the whole paragraph when the regex finds no match); a normal paragraph is
appended to `currentChunk` (with a `\n\n` separator when `currentChunk` is
nonempty) when `(currentChunk + paragraph).length <= maxChunkSize`,
otherwise `currentChunk` is flushed and restarted from the paragraph. -/
def scStep (M : Nat) (acc : List (List Char) × List Char) (para : List Char) :
    List (List Char) × List Char :=
  let chunks := acc.1
  let cur := acc.2
  if M < para.length then
    let chunks1 := if cur = [] then chunks else chunks ++ [cur]
    let sents := if sentences para = [] then [para] else sentences para
    let inner := sents.foldl (sentStep M) (chunks1, [])
    ((if inner.2 = [] then inner.1 else inner.1 ++ [inner.2]), [])
  else
    if (cur ++ para).length ≤ M then
      (chunks, cur ++ (if cur = [] then [] else sep) ++ para)
    else
      ((if cur = [] then chunks else chunks ++ [cur]), para)

/-- `splitContent(text)` of routes/files.ts lines 747-789 (and, with
`CHUNK.MAX_SIZE` in place of the literal 1000, of utils/content.ts),
parameterized by the maximum chunk size `M`. -/
def splitContent (M : Nat) (text : List Char) : List (List Char) :=
  let r := (splitParas text).foldl (scStep M) ([], [])
  if r.2 = [] then r.1 else r.1 ++ [r.2]

/-- Join a chunk list with double line breaks (the reconstruction
`results.join('\n\n')` side of the chunking contract). -/
def joinSep : List (List Char) → List Char
  | [] => []
  | [c] => c
  | c :: cs => c ++ sep ++ joinSep cs

/-- Chunk selection of the `/api/optimize` handler (routes/files.ts line
573): `text.length > 2000 ? splitContent(text) : [text]`, where the local
`splitContent` uses `maxChunkSize = 1000`. -/
def selectChunks (text : List Char) : List (List Char) :=
  if 2000 < text.length then splitContent 1000 text else [text]

/-! ## Bounded scheduler (`processChunksWithLimit`, routes/files.ts lines
446-460; `processWithConcurrencyLimit`, utils/timeouts.ts lines 219-233) -/

/-- Batch decomposition of the scheduler loop
`for (i = 0; i < items.length; i += concurrentLimit)` with
`items.slice(i, i + concurrentLimit)`. Fuel is the item count; it never
runs out when `1 ≤ limit` (with `limit = 0` the JS loop does not
terminate). -/
def toBatchesGo (limit : Nat) : Nat → List α → List (List α)
  | 0, _ => []
  | _, [] => []
  | fuel + 1, l => l.take limit :: toBatchesGo limit fuel (l.drop limit)

/-- The list of successive batches of size `limit`. -/
def toBatches (limit : Nat) (l : List α) : List (List α) :=
  toBatchesGo limit l.length l

/-- One completion event inside `Promise.all`: the invocation for index
`idx` of the batch finishes and its value is stored at slot `idx`. -/
def fillOne (proc : α → β) (batch : List α) (arr : List (Option β)) (idx : Nat) :
    List (Option β) :=
  match batch.get? idx with
  | some x => arr.set idx (some (proc x))
  | none => arr

/-- Collapse the slot array once every invocation has completed. -/
def allSome : List (Option β) → Option (List β)
  | [] => some []
  | none :: _ => none
  | some x :: rest => (allSome rest).map (x :: ·)

/-- `Promise.all` over one batch, made explicit about completion order:
invocations complete in the order given by `order` (a list of batch
indices), each storing its value at its own index; the promise resolves to
the values in index order. -/
def promiseAllSched (proc : α → β) (batch : List α) (order : List Nat) :
    Option (List β) :=
  allSome (order.foldl (fillOne proc batch) (batch.map fun _ => (none : Option β)))

/-- `processChunksWithLimit(items, processItem, concurrentLimit)` with an
adversarial completion order per batch (`orders`): batches run in
sequence, each batch's results are appended in index order. -/
def processChunksWithLimitSched (proc : α → β) (limit : Nat) (items : List α)
    (orders : List (List Nat)) : Option (List β) :=
  (allSome (((toBatches limit items).zip orders).map
      fun bo => promiseAllSched proc bo.1 bo.2)).map List.flatten

/-! ## Content extraction (`extractTextContent`) -/

/-- `extractTextContent` of utils/content.ts (the validating variant,
utils/timeouts.ts lines 377-415). The decoder phase (fs read or mammoth
conversion, both of which surface as `OptimizationError` or a raw error)
is the `decoded` argument; an empty extracted string raises the
`empty_content` error, a non-`OptimizationError` failure is wrapped as
`extraction_failed`. -/
def extractTextContentA (decoded : Except JsError String) : Except JsError String :=
  match decoded with
  | .error e =>
    match e with
    | .optimizationErr m p => .error (.optimizationErr m p)
    | _ => .error (.optimizationErr "Failed to extract file content" "extraction_failed")
  | .ok content =>
    if content.length = 0 then
      .error (.optimizationErr "Extracted content is empty" "empty_content")
    else .ok content

/-- `extractTextContent` of utils/timeouts.ts lines 500-506 (the minimal
variant): returns `result.value` of the decoder with no validation at
all. -/
def extractTextContentB (decodedValue : String) : Except JsError String :=
  .ok decodedValue

/-! ## Artifact cleanup of the `/api/optimize` handler (routes/files.ts
lines 486-676) -/

/-- Outcomes of one `/api/optimize` request, named after where the pipeline
stops. -/
inductive OptOutcome
  | success
  | extractionFail
  | chunkFatal
  | chunkRetryExhausted
  | noFile
  | uploadFail
deriving DecidableEq, Repr

/-- Whether the upload phase completed, i.e. `fileMetadata` was assigned a
saved artifact (routes/files.ts lines 509-558): false only when no file
arrived or `storageEngine.saveFile` itself failed. -/
def artifactCreated : OptOutcome → Bool
  | .noFile => false
  | .uploadFail => false
  | _ => true

/-- Whether the inner `try` block (extraction, chunking, chunk invocation,
response; routes/files.ts lines 560-625) throws. -/
def innerPhaseFails : OptOutcome → Bool
  | .extractionFail => true
  | .chunkFatal => true
  | .chunkRetryExhausted => true
  | _ => false

/-- Number of `storageEngine.deleteFile(fileMetadata.path)` calls made by
the handler: the inner `finally` (lines 626-631) deletes whenever
`fileMetadata.path` is set, and the outer `catch` (lines 644-647) deletes
again on any error since `fileMetadata.path` is still set. -/
def optimizeDeleteCalls (o : OptOutcome) : Nat :=
  if artifactCreated o then
    if innerPhaseFails o then 1 + 1 else 1
  else 0

/-- An operation that always fails with the malformed-response error the
`optimizeResume` flow raises (`OptimizationError('No response from Ollama
service')`). -/
def opMalformed : Nat → Except JsError Unit :=
  fun _ => Except.error (JsError.optimizationErr "No response from Ollama service" "no_response")

/-- An operation that always fails with a connection-refused error. -/
def opRefused : Nat → Except JsError Unit :=
  fun _ => Except.error (JsError.genericErr "connect ECONNREFUSED")

/-- One loop iteration of the Set-based `processWithConcurrencyLimit`
(utils/timeouts.ts lines 93-157). The accumulator is (results so far,
active tasks in insertion order as (task index, item), next task index).
Each iteration first runs the collection pass (lines 110-115): every
active task already completed — per the completion oracle, which abstracts
the timing resolved by the `Promise.race` wait at the concurrency limit —
has its result pushed onto `results` in Set-iteration (insertion) order
and is removed; then the new task is created, started and added
(lines 118-139). -/
def pwclStep (proc : α → β) (oracle : Nat → Nat → Bool)
    (acc : List β × List (Nat × α) × Nat) (item : α) :
    List β × List (Nat × α) × Nat :=
  let k := acc.2.2
  let collected := (acc.2.1.filter (fun t => oracle k t.1)).map (fun t => proc t.2)
  let remaining := acc.2.1.filter (fun t => !(oracle k t.1))
  (acc.1 ++ collected, remaining ++ [(k, item)], k + 1)

/-- `processWithConcurrencyLimit(items, processor, limit)` of
utils/timeouts.ts lines 93-157 (the Set-based variant), parameterized by
the completion oracle `oracle k idx` — whether task `idx` has completed by
the collection pass of loop iteration `k`. After the loop, the remaining
tasks are awaited (`Promise.all`, lines 143-146) and their results pushed
in insertion order (lines 149-153). The `limit` argument only decides
when the loop suspends on `Promise.race` and so constrains which oracles
are realizable; it does not enter the collection logic, which runs on
every iteration. -/
def processWithConcurrencyLimitSched (proc : α → β) (limit : Nat)
    (items : List α) (oracle : Nat → Nat → Bool) : List β :=
  let r := items.foldl (pwclStep proc oracle) ([], [], 0)
  r.1 ++ r.2.1.map (fun t => proc t.2)

/-- A realizable completion schedule for ceiling 2 over three items where
item 0 is slow and item 1 fast: at iteration 2 (when the limit forces a
`Promise.race` wait) task 1 has completed but task 0 has not; tasks 0 and
2 finish only during the final `Promise.all`. -/
def raceOracle : Nat → Nat → Bool := fun k idx => k == 2 && idx == 1

/-! ## Theorems -/

/-- Auxiliary: the fold of `recordSuccess` keeps the running average equal
to (running sum) / (running count). The hypothesis rules out a spurious
nonzero sum at count zero. -/
theorem foldl_recordSuccess (ds : List ℚ) :
    ∀ (T F n : Nat) (s : ℚ), (n = 0 → s = 0) →
      List.foldl recordSuccess ⟨T, n, F, s / (n : ℚ)⟩ ds
        = ⟨T, n + ds.length, F, (s + ds.sum) / ((n : ℚ) + (ds.length : ℚ))⟩ := by
  induction ds with
  | nil => intro T F n s _; simp
  | cons d rest ih =>
    intro T F n s hs
    have hstep : recordSuccess ⟨T, n, F, s / (n : ℚ)⟩ d
        = ⟨T, n + 1, F, (s + d) / ((n : ℚ) + 1)⟩ := by
      simp only [recordSuccess]
      refine congrArg _ ?_
      rcases Nat.eq_zero_or_pos n with hn | hn
      · subst hn; simp [hs rfl]
      · have hn' : ((n : ℚ)) ≠ 0 := Nat.cast_ne_zero.mpr (by omega)
        push_cast
        rw [add_sub_cancel_right, div_mul_cancel₀ _ hn']
    rw [List.foldl_cons, hstep]
    have h2 : ((n + 1 : Nat) : ℚ) = (n : ℚ) + 1 := by push_cast; ring
    have := ih T F (n + 1) (s + d) (by omega)
    rw [h2] at this
    rw [this]
    simp only [ReqMetrics.mk.injEq, List.sum_cons, List.length_cons]
    refine ⟨trivial, by omega, trivial, ?_⟩
    push_cast
    ring_nf

/-- C9: after every successful request the handler updates the average by
`newAvg = (oldAvg * (n - 1) + latest) / n` with `n` the incremented success
count (routes/files.ts lines 609-613); consequently, starting from the
initial metrics, after the successes `ds` the average equals the
arithmetic mean of `ds` and the success counter equals their number. -/
theorem metrics_average_is_mean (ds : List ℚ) (m : ReqMetrics) (t : ℚ) :
    (recordSuccess m t).successfulRequests = m.successfulRequests + 1 ∧
    (recordSuccess m t).averageProcessingTime
      = (m.averageProcessingTime * (((m.successfulRequests + 1 : Nat) : ℚ) - 1) + t)
          / ((m.successfulRequests + 1 : Nat) : ℚ) ∧
    (List.foldl recordSuccess initialMetrics ds).successfulRequests = ds.length ∧
    (List.foldl recordSuccess initialMetrics ds).averageProcessingTime
      = ds.sum / (ds.length : ℚ) := by
  refine ⟨rfl, rfl, ?_, ?_⟩
  · have h0 : initialMetrics = (⟨0, 0, 0, (0 : ℚ) / ((0 : Nat) : ℚ)⟩ : ReqMetrics) := by
      simp [initialMetrics]
    rw [h0, foldl_recordSuccess ds 0 0 0 0 (fun _ => rfl)]
    exact Nat.zero_add ds.length
  · have h0 : initialMetrics = (⟨0, 0, 0, (0 : ℚ) / ((0 : Nat) : ℚ)⟩ : ReqMetrics) := by
      simp [initialMetrics]
    rw [h0, foldl_recordSuccess ds 0 0 0 0 (fun _ => rfl)]
    simp only
    rw [zero_add, Nat.cast_zero, zero_add]

/-- C6: for a fixed cold-start flag, `calculateTimeout` is non-decreasing
in the content length; past the clamp threshold it returns exactly the
120000 ms maximum; for non-first calls it is the clamped affine formula;
a first call returns the fixed 90000 ms cold-start budget. Both source
variants are covered (`calculateTimeoutA`: base 60000, 0.05 ms/char;
`calculateTimeoutB`: base 45000, 5 ms/char). -/
theorem calculateTimeout_monotone_clamped (l1 l2 : ℚ) (n1 n2 : Nat) (f : Bool)
    (h0 : 0 ≤ l1) (h12 : l1 ≤ l2) (hn : n1 ≤ n2) :
    calculateTimeoutA l1 f ≤ calculateTimeoutA l2 f ∧
    (1200000 ≤ l1 → calculateTimeoutA l1 false = 120000) ∧
    calculateTimeoutA l1 false = min (60000 + l1 * (1 / 20)) 120000 ∧
    calculateTimeoutA l1 true = 90000 ∧
    calculateTimeoutB n1 ≤ calculateTimeoutB n2 ∧
    (15000 ≤ n1 → calculateTimeoutB n1 = 120000) ∧
    calculateTimeoutB n1 = min (45000 + n1 * 5) 120000 := by
  refine ⟨?_, ?_, rfl, rfl, ?_, ?_, rfl⟩
  · cases f with
    | true => simp [calculateTimeoutA]
    | false =>
      simp only [calculateTimeoutA, if_neg Bool.false_ne_true]
      gcongr
  · intro h
    simp only [calculateTimeoutA, if_neg Bool.false_ne_true]
    rw [min_eq_right]
    nlinarith
  · simp only [calculateTimeoutB]
    have : 45000 + n1 * 5 ≤ 45000 + n2 * 5 := by omega
    omega
  · intro h
    simp only [calculateTimeoutB]
    omega

/-- Witness for `calculateTimeout_monotone_clamped` at concrete inputs. -/
theorem calculateTimeout_monotone_clamped_witness :
    (0 : ℚ) ≤ 1200000 ∧ (1200000 : ℚ) ≤ 2400000 ∧ 15000 ≤ 20000 ∧
    (calculateTimeoutA 1200000 false ≤ calculateTimeoutA 2400000 false ∧
     ((1200000 : ℚ) ≤ 1200000 → calculateTimeoutA 1200000 false = 120000) ∧
     calculateTimeoutA 1200000 false = min (60000 + 1200000 * (1 / 20)) 120000 ∧
     calculateTimeoutA 1200000 true = 90000 ∧
     calculateTimeoutB 15000 ≤ calculateTimeoutB 20000 ∧
     (15000 ≤ 15000 → calculateTimeoutB 15000 = 120000) ∧
     calculateTimeoutB 15000 = min (45000 + 15000 * 5) 120000) :=
  ⟨by norm_num, by norm_num, by norm_num,
   calculateTimeout_monotone_clamped 1200000 2400000 15000 20000 false
     (by norm_num) (by norm_num) (by norm_num)⟩

/-- C10: the `/api/optimize` handler submits any text of length at most
2000 as a single chunk (even past the chunker's own 1000-character
maximum), and applies `splitContent` only to strictly longer texts
(routes/files.ts line 573). -/
theorem selectChunks_bypass (text : List Char) :
    (text.length ≤ 2000 → selectChunks text = [text] ∧ (selectChunks text).length = 1) ∧
    (2000 < text.length → selectChunks text = splitContent 1000 text) := by
  constructor
  · intro h
    have hnot : ¬ (2000 < text.length) := by omega
    unfold selectChunks
    rw [if_neg hnot]
    exact ⟨rfl, rfl⟩
  · intro h
    unfold selectChunks
    rw [if_pos h]

/-- Witness for `selectChunks_bypass`: a 1500-character text exceeds the
chunker's 1000-character maximum yet bypasses the chunker. -/
theorem selectChunks_bypass_witness :
    1000 < (List.replicate 1500 'a').length ∧
    (List.replicate 1500 'a').length ≤ 2000 ∧
    selectChunks (List.replicate 1500 'a') = [List.replicate 1500 'a'] :=
  ⟨by rw [List.length_replicate]; norm_num,
   by rw [List.length_replicate]; norm_num,
   ((selectChunks_bypass (List.replicate 1500 'a')).1
     (by rw [List.length_replicate]; norm_num)).1⟩

/-- C4 counterexample: on an extraction failure the artifact, although
created, is deleted twice (inner `finally` plus outer `catch`), not
exactly once as the claim states. -/
theorem optimize_cleanup_not_once :
    artifactCreated OptOutcome.extractionFail = true ∧
    optimizeDeleteCalls OptOutcome.extractionFail = 2 ∧ (2 ≠ 1) := by decide

/-- C4 (amended): whenever the artifact was created the handler deletes it
before the request completes on every outcome — once on success, twice
(inner `finally` then outer `catch`) on any failure after creation — and
makes no delete call when no artifact was created. -/
theorem optimize_cleanup (o : OptOutcome) :
    (artifactCreated o = true → 1 ≤ optimizeDeleteCalls o) ∧
    (o = OptOutcome.success → optimizeDeleteCalls o = 1) ∧
    (artifactCreated o = true → innerPhaseFails o = true → optimizeDeleteCalls o = 2) ∧
    (artifactCreated o = false → optimizeDeleteCalls o = 0) := by
  cases o <;> simp [optimizeDeleteCalls, artifactCreated, innerPhaseFails]

/-- Witness for `optimize_cleanup` at a retry-exhaustion outcome. -/
theorem optimize_cleanup_witness :
    artifactCreated OptOutcome.chunkRetryExhausted = true ∧
    innerPhaseFails OptOutcome.chunkRetryExhausted = true ∧
    optimizeDeleteCalls OptOutcome.chunkRetryExhausted = 2 :=
  ⟨rfl, rfl, (optimize_cleanup OptOutcome.chunkRetryExhausted).2.2.1 rfl rfl⟩

/-- C8 counterexample: the minimal `extractTextContent` variant
(utils/timeouts.ts lines 500-506) returns empty extracted text
successfully instead of failing with an empty-content error. -/
theorem extractTextContent_minimal_returns_empty :
    extractTextContentB "" = Except.ok "" ∧ ("" : String).length = 0 := ⟨rfl, rfl⟩

/-- C8 (amended): the validating `extractTextContent` (utils/content.ts,
utils/timeouts.ts lines 377-415) raises the `empty_content` error on empty
extracted text and never returns an empty string successfully; the minimal
duplicate at lines 500-506 performs no such check. -/
theorem extractTextContent_empty_content (d : Except JsError String) (s : String)
    (h : extractTextContentA d = Except.ok s) :
    s.length ≠ 0 ∧
    extractTextContentA (Except.ok "")
      = Except.error (.optimizationErr "Extracted content is empty" "empty_content") := by
  refine ⟨?_, rfl⟩
  match d with
  | .error (.ollamaErr m t) => simp [extractTextContentA] at h
  | .error (.optimizationErr m p) => simp [extractTextContentA] at h
  | .error (.genericErr m) => simp [extractTextContentA] at h
  | .ok content =>
    by_cases hc : content.length = 0
    · simp [extractTextContentA, hc] at h
    · simp only [extractTextContentA, if_neg hc, Except.ok.injEq] at h
      subst h
      exact hc

/-- Witness for `extractTextContent_empty_content` at nonempty content. -/
theorem extractTextContent_empty_content_witness :
    extractTextContentA (Except.ok "x") = Except.ok "x" ∧
    ("x" : String).length ≠ 0 :=
  ⟨rfl, (extractTextContent_empty_content (Except.ok "x") "x" rfl).1⟩

/-- Auxiliary: the attempt counter reported by the `withRetry` loop of
utils/timeouts.ts lines 46-85 never exceeds `attempt + remaining - 1`. -/
theorem goA_attempts_le (op : Nat → Except JsError α) (M d : Nat) :
    ∀ r a, (goA op M d a r).attempts ≤ a + r - 1 := by
  intro r
  induction r with
  | zero => intro a; simp [goA]
  | succ n ih =>
    intro a
    simp only [goA]
    cases op a with
    | ok v => simp
    | error e =>
      by_cases hf : fatalA e
      · simp [hf]
      · by_cases hn : n = 0
        · simp [hf, hn]
        · have := ih (a + 1)
          simp [hf, hn]
          omega

/-- Auxiliary: attempt bound for the exponential-backoff `withRetry` loop. -/
theorem goB_attempts_le (op : Nat → Except JsError α) (d : Nat) :
    ∀ r a, (goB op d a r).attempts ≤ a + r - 1 := by
  intro r
  induction r with
  | zero => intro a; simp [goB]
  | succ n ih =>
    intro a
    simp only [goB]
    cases op a with
    | ok v => simp
    | error e =>
      by_cases hn : n = 0
      · simp [hn]
      · have := ih (a + 1)
        simp [hn]
        omega

/-- Auxiliary: attempt bound for the `retryRequest` loop. -/
theorem goRR_attempts_le (op : Nat → Except JsError α) (jitter : Nat → ℚ) :
    ∀ r a, (goRR op jitter a r).2.1 ≤ a + r - 1 := by
  intro r
  induction r with
  | zero => intro a; simp [goRR]
  | succ n ih =>
    intro a
    simp only [goRR]
    cases op a with
    | ok v => simp
    | error e =>
      by_cases hn : n = 0
      · simp [hn]
      · have := ih (a + 1)
        simp [hn]
        omega

/-- C3 (amended): every retry wrapper performs at most the configured
number of attempts; an `OllamaError` of type `MODEL_NOT_FOUND` raised on
the first attempt terminates the utils/timeouts.ts `withRetry` after
exactly one attempt, propagated unchanged with no delay slept.
(Malformed-response errors carry no such exemption — see the
counterexample — and `withRetryB` / `retryRequest` retry every class.) -/
theorem withRetry_attempt_bound (op : Nat → Except JsError α)
    (maxAttempts delayMs baseDelayMs maxRetries : Nat) (jitter : Nat → ℚ)
    (m : String) (h1 : 1 ≤ maxAttempts) :
    (withRetryA op maxAttempts delayMs).attempts ≤ maxAttempts ∧
    (withRetryB op maxAttempts baseDelayMs).attempts ≤ maxAttempts ∧
    (retryRequest op jitter maxRetries).2.1 ≤ maxRetries ∧
    (op 1 = Except.error (JsError.ollamaErr m ErrType.modelNotFound) →
      withRetryA op maxAttempts delayMs
        = ⟨Except.error (JsError.ollamaErr m ErrType.modelNotFound), 1, []⟩) := by
  refine ⟨?_, ?_, ?_, ?_⟩
  · have := goA_attempts_le op maxAttempts delayMs maxAttempts 1
    unfold withRetryA
    omega
  · have := goB_attempts_le op baseDelayMs maxAttempts 1
    unfold withRetryB
    omega
  · have := goRR_attempts_le op jitter maxRetries 1
    unfold retryRequest
    omega
  · intro hop
    obtain ⟨k, hk⟩ : ∃ k, maxAttempts = k + 1 := ⟨maxAttempts - 1, by omega⟩
    subst hk
    unfold withRetryA
    simp [goA, hop, fatalA]

/-- Witness for `withRetry_attempt_bound`: a model-not-found failure on the
first attempt ends the run at exactly one attempt. -/
theorem withRetry_attempt_bound_witness :
    (withRetryA (fun _ => (Except.error (JsError.ollamaErr "Model not found" ErrType.modelNotFound) : Except JsError Unit)) 3 2000).attempts ≤ 3 ∧
    withRetryA (fun _ => (Except.error (JsError.ollamaErr "Model not found" ErrType.modelNotFound) : Except JsError Unit)) 3 2000
      = ⟨Except.error (JsError.ollamaErr "Model not found" ErrType.modelNotFound), 1, []⟩ :=
  ⟨(withRetry_attempt_bound (fun _ => (Except.error (JsError.ollamaErr "Model not found" ErrType.modelNotFound) : Except JsError Unit)) 3 2000 1000 3 (fun _ => 0) "Model not found" (by norm_num)).1,
   (withRetry_attempt_bound (fun _ => (Except.error (JsError.ollamaErr "Model not found" ErrType.modelNotFound) : Except JsError Unit)) 3 2000 1000 3 (fun _ => 0) "Model not found" (by norm_num)).2.2.2 rfl⟩

/-- C3 counterexample: a malformed-response failure — fatal per the claim —
is retried like any other error: with `maxAttempts = 3` the
utils/timeouts.ts `withRetry` performs 3 attempts, not 1, and so does the
exponential variant. -/
theorem withRetry_retries_malformed_response :
    (withRetryA opMalformed 3 2000).attempts = 3 ∧
    (withRetryB opMalformed 3 1000).attempts = 3 ∧ (3 ≠ 1) := by
  refine ⟨rfl, rfl, by norm_num⟩

/-- Auxiliary: when every attempt fails, the exponential `withRetry` loop
uses all remaining attempts, sleeps `base * 2 ^ (k - 1)` after each
non-final attempt `k`, and rethrows the final attempt's error bare. -/
theorem goB_step (op : Nat → Except JsError α) (base a r : Nat) (e0 : JsError)
    (hopa : op a = Except.error e0) (hr : ¬ r = 0) :
    goB op base a (r + 1)
      = ⟨(goB op base (a + 1) r).result, (goB op base (a + 1) r).attempts,
         base * 2 ^ (a - 1) :: (goB op base (a + 1) r).delays⟩ := by
  simp only [goB, hopa, if_neg hr]

theorem goB_all_fail (op : Nat → Except JsError α) (e : Nat → JsError)
    (hop : ∀ k, op k = Except.error (e k)) (base : Nat) :
    ∀ r a, goB op base a (r + 1)
      = ⟨Except.error (e (a + r)), a + r,
         (List.range' a r).map (fun k => base * 2 ^ (k - 1))⟩ := by
  intro r
  induction r with
  | zero => intro a; simp [goB, hop a]
  | succ n ih =>
    intro a
    have hnz : ¬ (n + 1 = 0) := by omega
    rw [goB_step op base a (n + 1) (e a) (hop a) hnz, ih (a + 1)]
    dsimp only
    have hr : List.range' a (n + 1) = a :: List.range' (a + 1) n := rfl
    rw [hr, List.map_cons]
    have h1 : a + 1 + n = a + (n + 1) := by omega
    rw [h1]

/-- Auxiliary: one-step unfolding of the utils/timeouts.ts `withRetry`
loop on a non-fatal failing attempt that is not the last. -/
theorem goA_step (op : Nat → Except JsError α) (M d a r : Nat) (e0 : JsError)
    (hopa : op a = Except.error e0) (hnf0 : fatalA e0 = false) (hr : ¬ r = 0) :
    goA op M d a (r + 1)
      = ⟨(goA op M d (a + 1) r).result, (goA op M d (a + 1) r).attempts,
         d * a :: (goA op M d (a + 1) r).delays⟩ := by
  simp only [goA, hopa, hnf0, Bool.false_eq_true, if_false, if_neg hr]

/-- Auxiliary: when every attempt fails with a non-fatal error, the
utils/timeouts.ts `withRetry` loop uses all remaining attempts, sleeps
`delay * k` after each non-final attempt `k` (linear, not exponential),
and ends with the `CONNECTION_ERROR` that embeds the attempt count. -/
theorem goA_all_fail (op : Nat → Except JsError α) (e : Nat → JsError)
    (hop : ∀ k, op k = Except.error (e k)) (hnf : ∀ k, fatalA (e k) = false)
    (M d : Nat) :
    ∀ r a, goA op M d a (r + 1)
      = ⟨Except.error (JsError.ollamaErr
            ("Failed after " ++ toString M ++ " attempts: " ++ errMessage (e (a + r)))
            ErrType.connectionError),
         a + r, (List.range' a r).map (fun k => d * k)⟩ := by
  intro r
  induction r with
  | zero => intro a; simp [goA, hop a, hnf a]
  | succ n ih =>
    intro a
    have hnz : ¬ (n + 1 = 0) := by omega
    rw [goA_step op M d a (n + 1) (e a) (hop a) (hnf a) hnz, ih (a + 1)]
    dsimp only
    have hr : List.range' a (n + 1) = a :: List.range' (a + 1) n := rfl
    rw [hr, List.map_cons]
    have h1 : a + 1 + n = a + (n + 1) := by omega
    rw [h1]

/-- C5 (amended): when every attempt fails with a retryable error, the
exponential-backoff `withRetry` (routes/files.ts lines 463-484,
utils/timeouts.ts lines 179-200) sleeps exactly `baseDelay * 2 ^ (k - 1)`
between attempts `k` and `k + 1` but rethrows the last underlying error
(no connection-error wrapper, no attempt count); the `withRetry` of
utils/timeouts.ts lines 46-85 raises the terminal `CONNECTION_ERROR` whose
message embeds the attempt count but its delays are linear
(`baseDelay * k`), not exponential. -/
theorem withRetry_backoff_exhaustion (op : Nat → Except JsError α) (e : Nat → JsError)
    (maxAttempts base : Nat) (hop : ∀ k, op k = Except.error (e k))
    (hnf : ∀ k, fatalA (e k) = false) (h1 : 1 ≤ maxAttempts) :
    withRetryB op maxAttempts base
      = ⟨Except.error (e maxAttempts), maxAttempts,
         (List.range' 1 (maxAttempts - 1)).map (fun k => base * 2 ^ (k - 1))⟩ ∧
    withRetryA op maxAttempts base
      = ⟨Except.error (JsError.ollamaErr
            ("Failed after " ++ toString maxAttempts ++ " attempts: "
              ++ errMessage (e maxAttempts))
            ErrType.connectionError),
         maxAttempts,
         (List.range' 1 (maxAttempts - 1)).map (fun k => base * k)⟩ := by
  obtain ⟨r, hrr⟩ : ∃ r, maxAttempts = r + 1 := ⟨maxAttempts - 1, by omega⟩
  subst hrr
  have hadd : 1 + r = r + 1 := by omega
  have hsub : r + 1 - 1 = r := by omega
  constructor
  · rw [withRetryB, goB_all_fail op e hop base r 1, hadd, hsub]
  · rw [withRetryA, goA_all_fail op e hop hnf (r + 1) base r 1, hadd, hsub]

/-- C5 counterexample: in the wrapper that raises the attempt-count
connection error (utils/timeouts.ts lines 46-85) the delay after attempt 3
is `baseDelay * 3 = 3000`, not `baseDelay * 2 ^ 2 = 4000` as claimed; and
the exponential wrapper, exhausted, rethrows the bare last error instead
of a connection-error carrying the attempt count. -/
theorem withRetry_backoff_mismatch :
    (withRetryA opRefused 5 1000).delays = [1000, 2000, 3000, 4000] ∧
    ((withRetryA opRefused 5 1000).delays.get? 2 = some 3000) ∧
    (1000 * 2 ^ (3 - 1) = 4000) ∧ ((3000 : Nat) ≠ 4000) ∧
    (withRetryB opRefused 3 1000).result
      = Except.error (JsError.genericErr "connect ECONNREFUSED") :=
  ⟨rfl, rfl, by norm_num, by norm_num, rfl⟩

/-- Witness for `withRetry_backoff_exhaustion` at a concrete always-failing
operation with three attempts. -/
theorem withRetry_backoff_exhaustion_witness :
    (1 : Nat) ≤ 3 ∧
    (withRetryB opRefused 3 1000
      = ⟨Except.error (JsError.genericErr "connect ECONNREFUSED"), 3,
         (List.range' 1 2).map (fun k => 1000 * 2 ^ (k - 1))⟩ ∧
     withRetryA opRefused 3 1000
      = ⟨Except.error (JsError.ollamaErr
            ("Failed after " ++ toString 3 ++ " attempts: "
              ++ errMessage (JsError.genericErr "connect ECONNREFUSED"))
            ErrType.connectionError), 3,
         (List.range' 1 2).map (fun k => 1000 * k)⟩) :=
  ⟨by norm_num,
   withRetry_backoff_exhaustion opRefused
     (fun _ => JsError.genericErr "connect ECONNREFUSED") 3 1000
     (fun _ => rfl) (fun _ => rfl) (by norm_num)⟩

/-- C2 counterexample: with `failureThreshold = 3`, the alternating
sequence failure, success, failure, success, failure — whose longest run
of consecutive failures is 1 — trips the breaker open, because
`handleFailure` counts failures cumulatively and a success while closed
resets nothing. -/
theorem circuitBreaker_nonconsecutive_trip :
    (runCB ⟨3, 2, 60000⟩ CB.init
        [(0, false), (0, true), (0, false), (0, true), (0, false)]).state
      = CircuitState.opened ∧
    maxConsecFailures [false, true, false, true, false] = 1 ∧ (1 < 3) := by
  decide

/-- C2 (amended): the `CircuitBreaker` state machine starts closed; a
success while closed changes nothing (in particular the failure counter is
not reset, so the counter is cumulative rather than consecutive); a
failure while closed increments it and trips the breaker open — recording
the transition time — exactly when the incremented count reaches
`failureThreshold`; while open, calls within the cooldown window are
rejected with the wrapped function not executed and the state unchanged;
the first call after the cooldown elapses moves the breaker to half-open
before executing; in half-open, the success that brings the success count
to `successThreshold` resets both counters and closes the breaker, an
earlier success only increments the count, and a failure (whose
incremented failure count is at or above the threshold, as in every
reachable half-open state) reopens the breaker and resets the cooldown
clock. -/
theorem circuitBreaker_lifecycle (cfg : CBConfig) (s : CB) (now : Nat) (b : Bool) :
    CB.init.state = CircuitState.closed ∧
    (s.state = CircuitState.closed →
      cbExecute cfg s now true = (CBOutcome.succeeded, s)) ∧
    (s.state = CircuitState.closed → cfg.failureThreshold ≤ s.failures + 1 →
      cbExecute cfg s now false
        = (CBOutcome.failed,
           { s with failures := s.failures + 1, state := CircuitState.opened,
                    lastFailure := now })) ∧
    (s.state = CircuitState.closed → s.failures + 1 < cfg.failureThreshold →
      cbExecute cfg s now false
        = (CBOutcome.failed, { s with failures := s.failures + 1 })) ∧
    (s.state = CircuitState.opened → now - s.lastFailure ≤ cfg.timeout →
      cbExecute cfg s now b = (CBOutcome.rejected, s)) ∧
    (s.state = CircuitState.opened → cfg.timeout < now - s.lastFailure →
      cbExecute cfg s now b
        = (if b then
             (CBOutcome.succeeded,
              handleSuccess cfg { s with state := CircuitState.halfOpen })
           else
             (CBOutcome.failed,
              handleFailure cfg { s with state := CircuitState.halfOpen } now))) ∧
    (s.state = CircuitState.halfOpen → cfg.successThreshold ≤ s.successes + 1 →
      cbExecute cfg s now true
        = (CBOutcome.succeeded,
           { s with failures := 0, successes := 0, state := CircuitState.closed })) ∧
    (s.state = CircuitState.halfOpen → s.successes + 1 < cfg.successThreshold →
      cbExecute cfg s now true
        = (CBOutcome.succeeded, { s with successes := s.successes + 1 })) ∧
    (s.state = CircuitState.halfOpen → cfg.failureThreshold ≤ s.failures + 1 →
      cbExecute cfg s now false
        = (CBOutcome.failed,
           { s with failures := s.failures + 1, state := CircuitState.opened,
                    lastFailure := now })) := by
  refine ⟨rfl, ?_, ?_, ?_, ?_, ?_, ?_, ?_, ?_⟩
  · intro h
    simp [cbExecute, handleSuccess, h]
  · intro h hth
    simp [cbExecute, handleFailure, h, hth]
  · intro h hth
    have : ¬ cfg.failureThreshold ≤ s.failures + 1 := by omega
    simp [cbExecute, handleFailure, h, this]
  · intro h hc
    have : ¬ cfg.timeout < now - s.lastFailure := by omega
    simp [cbExecute, h, this]
  · intro h hc
    cases b with
    | true => simp [cbExecute, h, hc]
    | false => simp [cbExecute, h, hc]
  · intro h hth
    simp [cbExecute, handleSuccess, h, hth]
  · intro h hth
    have : ¬ cfg.successThreshold ≤ s.successes + 1 := by omega
    simp [cbExecute, handleSuccess, h, this]
  · intro h hth
    simp [cbExecute, handleFailure, h, hth]

/-- Witness for `circuitBreaker_lifecycle`: a third failure at threshold 3
trips a closed breaker open and stamps the transition time; a success in a
closed breaker leaves the accumulated failures in place. -/
theorem circuitBreaker_lifecycle_witness :
    cbExecute ⟨3, 2, 60000⟩ ⟨2, 0, CircuitState.closed, 0⟩ 5 false
      = (CBOutcome.failed, ⟨3, 0, CircuitState.opened, 5⟩) ∧
    cbExecute ⟨3, 2, 60000⟩ ⟨2, 0, CircuitState.closed, 0⟩ 5 true
      = (CBOutcome.succeeded, ⟨2, 0, CircuitState.closed, 0⟩) :=
  ⟨(circuitBreaker_lifecycle ⟨3, 2, 60000⟩ ⟨2, 0, CircuitState.closed, 0⟩ 5 false).2.2.1
      rfl (by norm_num),
   (circuitBreaker_lifecycle ⟨3, 2, 60000⟩ ⟨2, 0, CircuitState.closed, 0⟩ 5 true).2.1 rfl⟩

/-- Auxiliary: storing one completed invocation keeps the slot count. -/
theorem fillOne_length (proc : α → β) (batch : List α) (arr : List (Option β)) (idx : Nat) :
    (fillOne proc batch arr idx).length = arr.length := by
  unfold fillOne
  cases batch.get? idx <;> simp

/-- Auxiliary: a whole completion schedule keeps the slot count. -/
theorem foldl_fillOne_length (proc : α → β) (batch : List α) :
    ∀ (order : List Nat) (arr : List (Option β)),
      (order.foldl (fillOne proc batch) arr).length = arr.length := by
  intro order
  induction order with
  | nil => intro arr; rfl
  | cons j rest ih =>
    intro arr
    rw [List.foldl_cons, ih, fillOne_length]

/-- Auxiliary: a completion event for a different index leaves a slot
untouched. -/
theorem fillOne_get_ne (proc : α → β) (batch : List α) (arr : List (Option β))
    (idx j : Nat) (h : idx ≠ j) :
    (fillOne proc batch arr idx)[j]? = arr[j]? := by
  unfold fillOne
  cases batch.get? idx with
  | none => rfl
  | some x =>
    rw [List.getElem?_set]
    simp [h]

/-- Auxiliary: a completion event stores the processed value at its own
index. -/
theorem fillOne_get_eq (proc : α → β) (batch : List α) (arr : List (Option β))
    (idx : Nat) (x : α) (hx : batch.get? idx = some x) (hlt : idx < arr.length) :
    (fillOne proc batch arr idx)[idx]? = some (some (proc x)) := by
  unfold fillOne
  rw [hx, List.getElem?_set]
  simp [hlt]

/-- Auxiliary: once a slot holds its value, later completion events never
change it (re-completions of the same index store the same value). -/
theorem foldl_fillOne_stable (proc : α → β) (batch : List α) :
    ∀ (order : List Nat) (arr : List (Option β)) (i : Nat) (x : α),
      batch.get? i = some x → arr[i]? = some (some (proc x)) →
      (order.foldl (fillOne proc batch) arr)[i]? = some (some (proc x)) := by
  intro order
  induction order with
  | nil => intro arr i x _ h; exact h
  | cons j rest ih =>
    intro arr i x hx h
    rw [List.foldl_cons]
    refine ih (fillOne proc batch arr j) i x hx ?_
    by_cases hij : j = i
    · subst hij
      have hlt : j < arr.length := by
        by_contra hge
        rw [List.getElem?_eq_none (by omega)] at h
        exact Option.noConfusion h
      exact fillOne_get_eq proc batch arr j x hx hlt
    · rw [fillOne_get_ne proc batch arr j i hij]
      exact h

/-- Auxiliary: after a schedule that completes index `i`, slot `i` holds
the processed value of batch element `i`. -/
theorem foldl_fillOne_complete (proc : α → β) (batch : List α) :
    ∀ (order : List Nat) (arr : List (Option β)) (i : Nat) (x : α),
      batch.get? i = some x → i < arr.length → i ∈ order →
      (order.foldl (fillOne proc batch) arr)[i]? = some (some (proc x)) := by
  intro order
  induction order with
  | nil => intro arr i x _ _ hmem; exact absurd hmem (List.not_mem_nil i)
  | cons j rest ih =>
    intro arr i x hx hlt hmem
    rw [List.foldl_cons]
    by_cases hir : i ∈ rest
    · exact ih (fillOne proc batch arr j) i x hx (by rw [fillOne_length]; exact hlt) hir
    · have hij : i = j := by
        rcases List.mem_cons.mp hmem with h | h
        · exact h
        · exact absurd h hir
      subst hij
      refine foldl_fillOne_stable proc batch rest (fillOne proc batch arr i) i x hx ?_
      exact fillOne_get_eq proc batch arr i x hx hlt

/-- Auxiliary: collapsing a fully-resolved slot list yields the values. -/
theorem allSome_map_some : ∀ l : List β, allSome (l.map some) = some l := by
  intro l
  induction l with
  | nil => rfl
  | cons x rest ih => simp [allSome, ih]

/-- Auxiliary: whenever the completion order covers every index of the
batch, the modelled `Promise.all` resolves to the processed values in
batch-index order — for every completion order. -/
theorem promiseAllSched_complete (proc : α → β) (batch : List α) (order : List Nat)
    (hc : ∀ i < batch.length, i ∈ order) :
    promiseAllSched proc batch order = some (batch.map proc) := by
  unfold promiseAllSched
  have hfinal : order.foldl (fillOne proc batch) (batch.map fun _ => (none : Option β))
      = batch.map (fun x => some (proc x)) := by
    apply List.ext_getElem?
    intro n
    by_cases hn : n < batch.length
    · have hx : batch.get? n = some batch[n] := by
        rw [List.get?_eq_getElem?, List.getElem?_eq_getElem hn]
      rw [foldl_fillOne_complete proc batch order (batch.map fun _ => (none : Option β))
            n batch[n] hx (by simpa using hn) (hc n hn)]
      rw [List.getElem?_map, List.getElem?_eq_getElem hn]
      rfl
    · have h1 : (order.foldl (fillOne proc batch) (batch.map fun _ => (none : Option β))).length ≤ n := by
        rw [foldl_fillOne_length]
        simp
        omega
      rw [List.getElem?_eq_none h1, List.getElem?_eq_none (by simp; omega)]
  rw [hfinal]
  have : batch.map (fun x => some (proc x)) = (batch.map proc).map some := by
    rw [List.map_map]
    rfl
  rw [this, allSome_map_some]

/-- Auxiliary: with a positive concurrency limit the batch decomposition
partitions the item list. -/
theorem toBatchesGo_flatten (limit : Nat) (hl : 1 ≤ limit) :
    ∀ (fuel : Nat) (l : List α), l.length ≤ fuel →
      (toBatchesGo limit fuel l).flatten = l := by
  intro fuel
  induction fuel with
  | zero =>
    intro l h
    have : l = [] := List.length_eq_zero.mp (by omega)
    subst this
    rfl
  | succ n ih =>
    intro l h
    cases l with
    | nil => rfl
    | cons a t =>
      simp only [toBatchesGo, List.flatten_cons]
      have hlen2 : ((a :: t).drop limit).length ≤ n := by
        rw [List.length_drop]
        simp only [List.length_cons] at h ⊢
        omega
      rw [ih ((a :: t).drop limit) hlen2]
      exact List.take_append_drop limit (a :: t)

/-- C7: for every item list, every concurrency ceiling at least 1, and
every family of per-batch completion orders that completes each batch, the
scheduler returns exactly one entry per input chunk, placed by the chunk's
original ordinal position (the result is `items.map proc`), regardless of
the completion order. -/
theorem processChunksWithLimit_order (items : List α) (proc : α → β) (limit : Nat)
    (orders : List (List Nat)) (hl : 1 ≤ limit)
    (hlen : (toBatches limit items).length ≤ orders.length)
    (hcomp : ∀ bo ∈ (toBatches limit items).zip orders, ∀ i < bo.1.length, i ∈ bo.2) :
    processChunksWithLimitSched proc limit items orders = some (items.map proc) ∧
    ∀ res, processChunksWithLimitSched proc limit items orders = some res →
      res.length = items.length := by
  have hmain : processChunksWithLimitSched proc limit items orders = some (items.map proc) := by
    unfold processChunksWithLimitSched
    have h1 : ((toBatches limit items).zip orders).map
          (fun bo => promiseAllSched proc bo.1 bo.2)
        = ((toBatches limit items).zip orders).map (fun bo => some (bo.1.map proc)) :=
      List.map_congr_left (fun bo hbo => promiseAllSched_complete proc bo.1 bo.2 (hcomp bo hbo))
    have h2 : ((toBatches limit items).zip orders).map (fun bo => some (bo.1.map proc))
        = (toBatches limit items).map (fun b => some (b.map proc)) := by
      have hfst := List.map_fst_zip (toBatches limit items) orders hlen
      calc ((toBatches limit items).zip orders).map (fun bo => some (bo.1.map proc))
          = (((toBatches limit items).zip orders).map Prod.fst).map
              (fun b => some (b.map proc)) := by
            rw [List.map_map]
            exact List.map_congr_left (fun bo _ => rfl)
        _ = (toBatches limit items).map (fun b => some (b.map proc)) := by rw [hfst]
    have h3 : (toBatches limit items).map (fun b => some (b.map proc))
        = ((toBatches limit items).map (fun b => b.map proc)).map some := by
      rw [List.map_map]
      rfl
    rw [h1, h2, h3, allSome_map_some]
    have h4 : ((toBatches limit items).map (fun b => b.map proc)).flatten
        = ((toBatches limit items).flatten).map proc := (List.map_flatten proc _).symm
    have h5 : (toBatches limit items).flatten = items :=
      toBatchesGo_flatten limit hl items.length items (le_refl _)
    simp only [Option.map_some']
    rw [h4, h5]
  refine ⟨hmain, ?_⟩
  intro res hres
  rw [hmain] at hres
  cases hres
  rw [List.length_map]

/-- Witness for `processChunksWithLimit_order`: three chunks, ceiling 2,
with the first batch completing out of order. -/
theorem processChunksWithLimit_order_witness :
    1 ≤ 2 ∧
    (toBatches 2 [1, 2, 3]).length ≤ ([[1, 0], [0]] : List (List Nat)).length ∧
    processChunksWithLimitSched (fun n => n + 10) 2 [1, 2, 3] [[1, 0], [0]]
      = some [11, 12, 13] :=
  ⟨by norm_num, by decide,
   (processChunksWithLimit_order [1, 2, 3] (fun n => n + 10) 2 [[1, 0], [0]]
      (by norm_num) (by decide) (by decide)).1⟩

/-- Auxiliary: the paragraph splitter never returns an empty list (JS
`split` always yields at least one, possibly empty, part). -/
theorem spAux_ne_nil : ∀ (n : Nat) (s : List Char), s.length ≤ n →
    ∀ (b : Bool) (cur : List Char), spAux b s cur ≠ [] := by
  intro n
  induction n with
  | zero =>
    intro s h b cur
    have hs : s = [] := List.length_eq_zero.mp (by omega)
    subst hs
    simp [spAux]
  | succ n ih =>
    intro s h b cur
    cases s with
    | nil => simp [spAux]
    | cons c rest =>
      have hr : rest.length ≤ n := by simp at h; omega
      cases b with
      | true =>
        show (if c = '\n' then spAux true rest cur
              else spAux false rest (c :: cur)) ≠ []
        by_cases hc : c = '\n'
        · rw [if_pos hc]; exact ih rest hr true cur
        · rw [if_neg hc]; exact ih rest hr false (c :: cur)
      | false =>
        cases rest with
        | nil =>
          show (if c = '\n' then [(c :: cur).reverse]
                else spAux false [] (c :: cur)) ≠ []
          by_cases hc : c = '\n'
          · rw [if_pos hc]; simp
          · rw [if_neg hc]; simp [spAux]
        | cons c2 rest2 =>
          have hr2 : rest2.length ≤ n := by simp at h; omega
          show (if c = '\n' then
                  (if c2 = '\n' then cur.reverse :: spAux true rest2 []
                   else spAux false rest2 (c2 :: c :: cur))
                else spAux false (c2 :: rest2) (c :: cur)) ≠ []
          by_cases hc : c = '\n'
          · rw [if_pos hc]
            by_cases hc2 : c2 = '\n'
            · rw [if_pos hc2]; simp
            · rw [if_neg hc2]; exact ih rest2 hr2 false (c2 :: c :: cur)
          · rw [if_neg hc]
            exact ih (c2 :: rest2) (by simp at h ⊢; omega) false (c :: cur)

/-- Auxiliary: unfolding of `joinSep` on a cons with nonempty tail. -/
theorem joinSep_cons (x : List Char) (l : List (List Char)) (h : l ≠ []) :
    joinSep (x :: l) = x ++ sep ++ joinSep l := by
  cases l with
  | nil => exact absurd rfl h
  | cons y t => rfl

/-- Auxiliary: merging two adjacent entries with the separator in between
leaves the double-line-break join unchanged — the key invariant of the
greedy paragraph accumulation. -/
theorem joinSep_merge : ∀ (l1 : List (List Char)) (a b : List Char)
    (l2 : List (List Char)),
    joinSep (l1 ++ (a ++ sep ++ b) :: l2) = joinSep (l1 ++ a :: b :: l2) := by
  intro l1
  induction l1 with
  | nil =>
    intro a b l2
    cases l2 with
    | nil => simp [joinSep]
    | cons c t => simp [joinSep, List.append_assoc]
  | cons x l1' ih =>
    intro a b l2
    have h1 : l1' ++ (a ++ sep ++ b) :: l2 ≠ [] := by simp
    have h2 : l1' ++ a :: b :: l2 ≠ [] := by simp
    rw [List.cons_append, List.cons_append, joinSep_cons x _ h1, joinSep_cons x _ h2, ih]

/-- Auxiliary: invariant of the `splitContent` paragraph loop when every
remaining paragraph is nonempty and within the maximum: the current chunk
stays nonempty and within `M + 2`, all emitted chunks are nonempty and
within `M + 2`, and the double-line-break join of (chunks so far plus the
current chunk plus the remaining paragraphs) is preserved. -/
theorem scLoop (M : Nat) :
    ∀ (paras : List (List Char)) (chunks : List (List Char)) (cur : List Char),
      (∀ p ∈ paras, p ≠ [] ∧ p.length ≤ M) →
      cur ≠ [] → cur.length ≤ M + 2 →
      (∀ c ∈ chunks, c ≠ [] ∧ c.length ≤ M + 2) →
      (paras.foldl (scStep M) (chunks, cur)).2 ≠ [] ∧
      (paras.foldl (scStep M) (chunks, cur)).2.length ≤ M + 2 ∧
      (∀ c ∈ (paras.foldl (scStep M) (chunks, cur)).1, c ≠ [] ∧ c.length ≤ M + 2) ∧
      joinSep ((paras.foldl (scStep M) (chunks, cur)).1
          ++ [(paras.foldl (scStep M) (chunks, cur)).2])
        = joinSep (chunks ++ cur :: paras) := by
  intro paras
  induction paras with
  | nil =>
    intro chunks cur _ hcne hclen hchunks
    exact ⟨hcne, hclen, hchunks, rfl⟩
  | cons p rest ih =>
    intro chunks cur hp hcne hclen hchunks
    have hpp := hp p (List.mem_cons_self p rest)
    have hrest : ∀ q ∈ rest, q ≠ [] ∧ q.length ≤ M :=
      fun q hq => hp q (List.mem_cons_of_mem p hq)
    rw [List.foldl_cons]
    have hnot : ¬ (M < p.length) := by have := hpp.2; omega
    by_cases hfit : (cur ++ p).length ≤ M
    · have hstep : scStep M (chunks, cur) p = (chunks, cur ++ sep ++ p) := by
        simp only [scStep]
        rw [if_neg hnot, if_pos hfit, if_neg hcne]
      rw [hstep]
      have hcur2 : (cur ++ sep ++ p) ≠ [] := by simp [hcne]
      have hlen2 : (cur ++ sep ++ p).length ≤ M + 2 := by
        simp only [List.length_append] at hfit ⊢
        simp only [sep, List.length_cons, List.length_nil]
        omega
      obtain ⟨a1, a2, a3, a4⟩ := ih chunks (cur ++ sep ++ p) hrest hcur2 hlen2 hchunks
      exact ⟨a1, a2, a3, by rw [a4, joinSep_merge chunks cur p rest]⟩
    · have hstep : scStep M (chunks, cur) p = (chunks ++ [cur], p) := by
        simp only [scStep]
        rw [if_neg hnot, if_neg hfit, if_neg hcne]
      rw [hstep]
      have hchunks2 : ∀ c ∈ chunks ++ [cur], c ≠ [] ∧ c.length ≤ M + 2 := by
        intro c hc
        rcases List.mem_append.mp hc with h | h
        · exact hchunks c h
        · have : c = cur := List.mem_singleton.mp h
          subst this
          exact ⟨hcne, hclen⟩
      obtain ⟨a1, a2, a3, a4⟩ :=
        ih (chunks ++ [cur]) p hrest hpp.1 (by have := hpp.2; omega) hchunks2
      refine ⟨a1, a2, a3, ?_⟩
      rw [a4]
      congr 1
      simp

/-- C1 (amended): for every maximum chunk size `M > 0` and every text all
of whose paragraphs are nonempty and of length at most `M`, `splitContent`
returns a non-empty list of chunks, none empty, each of length at most
`M + 2` (the separator re-inserted between accumulated paragraphs is not
counted by the source's length check, so a chunk may exceed `M` by up to
2), and joining the chunks with double line breaks equals joining the
original paragraphs with double line breaks — every token preserved in
original order. (Without those hypotheses the claim fails: see the
counterexample for the empty text, the `M + 2` overshoot, and the dropped
trailing fragment of an oversized paragraph.) -/
theorem splitContent_contract (M : Nat) (T : List Char) (hM : 0 < M)
    (H : ∀ p ∈ splitParas T, p ≠ [] ∧ p.length ≤ M) :
    splitContent M T ≠ [] ∧
    (∀ c ∈ splitContent M T, c ≠ [] ∧ c.length ≤ M + 2) ∧
    joinSep (splitContent M T) = joinSep (splitParas T) := by
  obtain ⟨p, rest, hpr⟩ : ∃ p rest, splitParas T = p :: rest := by
    cases hsp : splitParas T with
    | nil => exact absurd hsp (spAux_ne_nil T.length T (le_refl _) false [])
    | cons p rest => exact ⟨p, rest, rfl⟩
  have hp := H p (by rw [hpr]; exact List.mem_cons_self p rest)
  have hrest : ∀ q ∈ rest, q ≠ [] ∧ q.length ≤ M := by
    intro q hq
    exact H q (by rw [hpr]; exact List.mem_cons_of_mem p hq)
  unfold splitContent
  rw [hpr, List.foldl_cons]
  have hstep1 : scStep M ([], []) p = ([], p) := by
    simp only [scStep]
    have hnot : ¬ (M < p.length) := by have := hp.2; omega
    rw [if_neg hnot]
    have hfit : (([] : List Char) ++ p).length ≤ M := by simpa using hp.2
    rw [if_pos hfit]
    simp
  rw [hstep1]
  obtain ⟨a1, a2, a3, a4⟩ :=
    scLoop M rest [] p hrest hp.1 (by have := hp.2; omega)
      (by intro c hc; simp at hc)
  rw [if_neg a1]
  refine ⟨by simp, ?_, ?_⟩
  · intro c hc
    rcases List.mem_append.mp hc with h | h
    · exact a3 c h
    · have hcu : c = _ := List.mem_singleton.mp h
      subst hcu
      exact ⟨a1, a2⟩
  · rw [a4]
    simp

/-- C1 counterexample, refuting three parts of the claim as stated on the
`maxChunkSize = 1000` instance and on small instances of the
`M`-parameterized chunker: the empty text yields an empty chunk list (not
non-empty); two paragraphs whose combined length passes the source's
separator-blind check produce a 7-character chunk with `M = 5` that is not
an oversized single sentence; and an oversized paragraph whose trailing
fragment lacks terminal punctuation loses that fragment (token `b` is
absent from the joined output). -/
theorem splitContent_claim_false :
    splitContent 1000 [] = [] ∧
    (splitContent 5 ['a', 'a', '\n', '\n', 'b', 'b', 'b']).map List.length = [7] ∧
    (5 < 7) ∧
    splitContent 5 ['a', 'a', 'a', '.', ' ', 'b', 'c', 'd'] = [['a', 'a', 'a', '.']] ∧
    ('b' ∈ ['a', 'a', 'a', '.', ' ', 'b', 'c', 'd']) ∧
    ('b' ∉ joinSep (splitContent 5 ['a', 'a', 'a', '.', ' ', 'b', 'c', 'd'])) := by
  decide

/-- Witness for `splitContent_contract` on the two-paragraph text
`"ab\n\ncd"` with `M = 5`. -/
theorem splitContent_contract_witness :
    0 < 5 ∧
    (∀ p ∈ splitParas ['a', 'b', '\n', '\n', 'c', 'd'], p ≠ [] ∧ p.length ≤ 5) ∧
    splitContent 5 ['a', 'b', '\n', '\n', 'c', 'd'] ≠ [] ∧
    joinSep (splitContent 5 ['a', 'b', '\n', '\n', 'c', 'd'])
      = joinSep (splitParas ['a', 'b', '\n', '\n', 'c', 'd']) :=
  ⟨by decide, by decide,
   (splitContent_contract 5 ['a', 'b', '\n', '\n', 'c', 'd'] (by decide) (by decide)).1,
   (splitContent_contract 5 ['a', 'b', '\n', '\n', 'c', 'd'] (by decide) (by decide)).2.2⟩

/-- C7 counterexample: the Set-based `processWithConcurrencyLimit`
(utils/timeouts.ts lines 93-157) appends results in completion-observation
order, not ordinal order: with ceiling 2, items [10, 20, 30] and the fast
second item completing before the third iteration's collection pass, the
returned list is [r2, r1, r3] instead of the ordinal [r1, r2, r3]. -/
theorem processWithConcurrencyLimit_out_of_order :
    processWithConcurrencyLimitSched (fun n => n + 1) 2 [10, 20, 30] raceOracle
      = [21, 11, 31] ∧
    [10, 20, 30].map (fun n => n + 1) = [11, 21, 31] ∧
    ([21, 11, 31] ≠ ([11, 21, 31] : List Nat)) := by decide
